import Mathlib

/-!
Verification development for the on-search data dashboard core
(`on_search_dashboard.py`).

Shallow embedding conventions:
* Cell text is modelled as `List Char` (`Str`); a nullable cell is `Option Str`.
* A parsed `Searched On` timestamp is modelled by its calendar date
  (`Date`, fields year/month/day); `pd.to_datetime(..., errors='coerce')`
  yielding `NaT` is modelled as `none`.  `strftime` / `strptime` with the
  fixed format `%d-%m-%Y` round-trip a calendar date exactly, so sorting the
  date strings by their parsed values is modelled as sorting the `Date`
  values by chronological order.
* Dataframes are lists of records; pandas sets are modelled as deduplicated
  lists with membership.  The in-place write of the `key` column in
  `get_missing_outlets` is modelled by explicit state passing: the function
  returns the updated frames alongside its results.
-/

abbrev Str := List Char

/-- Calendar date carried by the `searched_date` column. -/
structure Date where
  year : Nat
  month : Nat
  day : Nat
deriving DecidableEq, Repr

/-- One raw spreadsheet row, after `pd.to_datetime` on `Searched On`.
`searched_on = none` models both a missing cell and an unparseable
timestamp (`errors='coerce'`). -/
structure RawRow where
  searched_on : Option Date
  outlet_name : Option Str
  buyer_app : Option Str
  city_code : Str
  status : Str
  message : Option Str
deriving DecidableEq, Repr

def digitChar (n : Nat) : Char := Char.ofNat (48 + n)

/-- Two-digit zero-padded rendering, as produced by `%d` / `%m`. -/
def pad2 (n : Nat) : Str := [digitChar (n / 10 % 10), digitChar (n % 10)]

/-- Four-digit zero-padded rendering, as produced by `%Y`. -/
def pad4 (n : Nat) : Str :=
  [digitChar (n / 1000 % 10), digitChar (n / 100 % 10),
   digitChar (n / 10 % 10), digitChar (n % 10)]

/-- `dt.strftime('%d-%m-%Y')`. -/
def dateStr (d : Date) : Str := pad2 d.day ++ '-' :: pad2 d.month ++ '-' :: pad4 d.year

/-- One row of the dataframe returned by `load_data`: all required fields
present, plus the derived `searched_date` (kept as the underlying `Date`,
its string form being `dateStr sdate`), the `dedupe_key` column, and the
`key` column which is absent (`none`) until `get_missing_outlets` writes it. -/
structure NRecord where
  sdate : Date
  outlet_name : Str
  buyer_app : Str
  city_code : Str
  status : Str
  message : Option Str
  dedupe_key : Str
  key : Option Str
deriving DecidableEq, Repr

/-- Row-wise content of `load_data` before deduplication: keep a row only if
`searched_date`, `Outlet Name` and `Buyer App` are all present (`dropna`),
and attach `dedupe_key = searched_date + "-" + Outlet Name + "-" + Buyer App`. -/
def normRow (r : RawRow) : Option NRecord :=
  match r.searched_on, r.outlet_name, r.buyer_app with
  | some d, some o, some b =>
      some { sdate := d, outlet_name := o, buyer_app := b,
             city_code := r.city_code, status := r.status, message := r.message,
             dedupe_key := dateStr d ++ '-' :: o ++ '-' :: b, key := none }
  | _, _, _ => none

def eligibleRecords (rows : List RawRow) : List NRecord := rows.filterMap normRow

/-- `df.drop_duplicates(subset='dedupe_key')`: keep the first row bearing each
`dedupe_key` string (pandas default `keep='first'`), scanning left to right
with the set of already-seen keys. -/
def dedupAux (seen : List Str) : List NRecord → List NRecord
  | [] => []
  | r :: rs =>
      if r.dedupe_key ∈ seen then dedupAux seen rs
      else r :: dedupAux (r.dedupe_key :: seen) rs

/-- `load_data`: parse, derive `searched_date`, drop incomplete rows,
deduplicate on the concatenated `dedupe_key` column. -/
def load_data (rows : List RawRow) : List NRecord :=
  dedupAux [] (eligibleRecords rows)

/-- Chronological order on dates, the order `datetime.strptime` values carry. -/
def chronLE (a b : Date) : Prop :=
  a.year < b.year ∨ (a.year = b.year ∧
    (a.month < b.month ∨ (a.month = b.month ∧ a.day ≤ b.day)))

/-- Strict chronological order. -/
def chronLT (a b : Date) : Prop :=
  a.year < b.year ∨ (a.year = b.year ∧
    (a.month < b.month ∨ (a.month = b.month ∧ a.day < b.day)))

instance : DecidableRel chronLE := fun a b => by unfold chronLE; infer_instance

instance : DecidableRel chronLT := fun a b => by unfold chronLT; infer_instance

/-- The distinct `searched_date` values of a frame (`df['searched_date'].unique()`;
order of first appearance is irrelevant downstream because the values are
pairwise distinct and get sorted). -/
def distinctDates (l : List NRecord) : List Date := (l.map (fun r => r.sdate)).dedup

/-- `get_latest_two_dates`: sort the distinct dates chronologically
(`key=strptime`) and take the last two (`dates[-2:]`), or all of them when
fewer than two exist. -/
def get_latest_two_dates (l : List NRecord) : List Date :=
  (List.insertionSort chronLE (distinctDates l)).drop
    ((List.insertionSort chronLE (distinctDates l)).length - 2)

/-- `df[df['searched_date'] == d]`. -/
def subsetOn (df : List NRecord) (d : Date) : List NRecord :=
  df.filter (fun r => decide (r.sdate = d))

/-- `groupby('Buyer App')['Outlet Name'].nunique()` evaluated on one frame:
number of distinct outlet names. -/
def nuniqueOutlets (l : List NRecord) : Nat :=
  (l.map (fun r => r.outlet_name)).dedup.length

def appsOf (l : List NRecord) : List Str := (l.map (fun r => r.buyer_app)).dedup

/-- One row of the comparison summary dataframe. -/
structure SummaryRow where
  app : Str
  c1 : Nat
  c2 : Nat
  diff : Int
deriving DecidableEq, Repr

/-- `buyer_app_summary`: per buyer app (any app present on either date — the
union index of the two groupby results), the distinct-outlet counts on each
date (`fillna(0)` for an app absent from one subset) and the signed
`Difference` column; also returns the two date subsets. -/
def buyer_app_summary (df : List NRecord) (date1 date2 : Date) :
    List SummaryRow × List NRecord × List NRecord :=
  let df1 := subsetOn df date1
  let df2 := subsetOn df date2
  let apps := (appsOf df1 ++ appsOf df2).dedup
  (apps.map (fun a =>
      let c1 := nuniqueOutlets (df1.filter (fun r => decide (r.buyer_app = a)))
      let c2 := nuniqueOutlets (df2.filter (fun r => decide (r.buyer_app = a)))
      { app := a, c1 := c1, c2 := c2, diff := (c2 : Int) - (c1 : Int) }),
   df1, df2)

/-- The `Outlet Name + "|" + Buyer App` string used as delta key. -/
def pairKey (r : NRecord) : Str := r.outlet_name ++ '|' :: r.buyer_app

/-- Writing the `key` column into a row (`df['key'] = ...`). -/
def withKey (r : NRecord) : NRecord := { r with key := some (pairKey r) }

/-- `get_missing_outlets`: build the key sets of both frames, write the `key`
column into both input frames (an in-place mutation in the source, modelled
by returning the updated frames), and select the rows whose key lies in the
respective set difference (`isin(key1 - key2)` resp. `isin(key2 - key1)`).
Returns `(only_in_1, only_in_2, df1 after mutation, df2 after mutation)`. -/
def get_missing_outlets (df1 df2 : List NRecord) :
    List NRecord × List NRecord × List NRecord × List NRecord :=
  let key1 := (df1.map pairKey).dedup
  let key2 := (df2.map pairKey).dedup
  let df1k := df1.map withKey
  let df2k := df2.map withKey
  let only_in_1 := df1k.filter (fun r => decide (r.key.getD [] ∈ key1 ∧ r.key.getD [] ∉ key2))
  let only_in_2 := df2k.filter (fun r => decide (r.key.getD [] ∈ key2 ∧ r.key.getD [] ∉ key1))
  (only_in_1, only_in_2, df1k, df2k)

def lowerStr (s : Str) : Str := s.map Char.toLower

def upperStr (s : Str) : Str := s.map Char.toUpper

/-- `pat` matches at the front of the second list. -/
def startsWith : Str → Str → Bool
  | [], _ => true
  | _ :: _, [] => false
  | p :: ps, c :: cs => p == c && startsWith ps cs

/-- Python's substring test `pat in s`. -/
def containsStr (pat : Str) : Str → Bool
  | [] => startsWith pat []
  | c :: cs => startsWith pat (c :: cs) || containsStr pat cs

/-- `str(msg)` on a nullable message cell: Python renders `None` as the
string `"None"`. -/
def strOfMsg : Option Str → Str
  | some s => s
  | none => "None".toList

/-- `extract_reason`: lowercase `str(msg)` and run the fixed if/elif chain. -/
def extract_reason (msg : Option Str) : String :=
  let m := lowerStr (strOfMsg msg)
  if containsStr "timeout".toList m then "Timeout"
  else if containsStr "not found".toList m then "No items found"
  else if containsStr "inventory".toList m then "Inventory issue"
  else if containsStr "mapped".toList m then "No catalog mapped"
  else if containsStr "blank".toList m then "Blank response"
  else if containsStr "dropped".toList m then "Provider dropped"
  else "Other"

/-- The classifier's rule table in its source order, for stating that
`extract_reason` is a first-match scan of this table. -/
def reasonRules : List (Str × String) :=
  [("timeout".toList, "Timeout"),
   ("not found".toList, "No items found"),
   ("inventory".toList, "Inventory issue"),
   ("mapped".toList, "No catalog mapped"),
   ("blank".toList, "Blank response"),
   ("dropped".toList, "Provider dropped")]

/-- First-match scan of a rule table, `"Other"` when no rule fires. -/
def firstMatch : List (Str × String) → Str → String
  | [], _ => "Other"
  | (p, c) :: rs, m => if containsStr p m then c else firstMatch rs m

/-- One row of the NACK summary (`S.No`, app, reason, distinct store count). -/
structure NackRow where
  sno : Nat
  app : Str
  reason : String
  store_count : Nat
deriving DecidableEq, Repr

/-- `nack_summary`: filter the later-date frame to rows whose upper-cased
status equals `"NACK"`, classify each message, group by
`(Buyer App, Reason)` counting distinct outlets, number the rows 1-based,
and total the store counts.  Returns `(summary, classified NACK rows, total)`. -/
def nack_summary (df_today : List NRecord) :
    List NackRow × List (NRecord × String) × Nat :=
  let nack_df := df_today.filter (fun r => decide (upperStr r.status = "NACK".toList))
  let reasons := nack_df.map (fun r => (r, extract_reason r.message))
  let groups := (reasons.map (fun p => (p.1.buyer_app, p.2))).dedup
  let counted := groups.map (fun g =>
    (g, ((reasons.filter (fun p => decide (p.1.buyer_app = g.1 ∧ p.2 = g.2))).map
          (fun p => p.1.outlet_name)).dedup.length))
  let summary := (List.range counted.length).zip counted |>.map
    (fun q => { sno := q.1 + 1, app := q.2.1.1, reason := q.2.1.2, store_count := q.2.2 })
  (summary, reasons, (counted.map (fun q => q.2)).sum)

/-- The dataset-level halt condition of the dashboard body. -/
inductive PipelineError where
  | insufficientPeriods
deriving DecidableEq, Repr

/-- Everything the dashboard body computes past the date check. -/
structure PipelineOutput where
  summary : List SummaryRow
  only_yesterday : List NRecord
  only_today : List NRecord
  nack_rows : List NackRow
  total_nack : Nat
deriving DecidableEq, Repr

/-- The dashboard body: normalize, pick the two dates, halt with an error when
fewer than two distinct dates exist (`st.error` + `st.stop`), otherwise run
the comparator and the classifier.  `nack_summary` receives the later-date
frame as already mutated by `get_missing_outlets` (the `key` column written),
matching the source's call order. -/
def run_pipeline (rows : List RawRow) : Except PipelineError PipelineOutput :=
  let df := load_data rows
  match get_latest_two_dates df with
  | [date1, date2] =>
      let s := buyer_app_summary df date1 date2
      let m := get_missing_outlets s.2.1 s.2.2
      let n := nack_summary m.2.2.2
      .ok { summary := s.1, only_yesterday := m.1, only_today := m.2.1,
            nack_rows := n.1, total_nack := n.2.2 }
  | _ => .error .insufficientPeriods

/-- Re-injection of a normalized record into a raw row (all required cells
present), used to state that normalization is a fixed point on its own
output. -/
def toRaw (r : NRecord) : RawRow :=
  { searched_on := some r.sdate, outlet_name := some r.outlet_name,
    buyer_app := some r.buyer_app, city_code := r.city_code,
    status := r.status, message := r.message }

/-- Concrete raw row builder for witnesses and counterexamples. -/
def mkRaw (d : Option Date) (o b : Option Str) (st : Str) (m : Option Str) : RawRow :=
  { searched_on := d, outlet_name := o, buyer_app := b,
    city_code := "STD:080".toList, status := st, message := m }

/-- Concrete normalized record builder (fields as `load_data` would produce). -/
def mkNR (d : Date) (o b : Str) (st : Str) (m : Option Str) : NRecord :=
  { sdate := d, outlet_name := o, buyer_app := b,
    city_code := "STD:080".toList, status := st, message := m,
    dedupe_key := dateStr d ++ '-' :: o ++ '-' :: b, key := none }

def dfC6 : List NRecord :=
  [mkNR ⟨2024, 6, 1⟩ "A".toList "X".toList "ACK".toList none,
   mkNR ⟨2024, 6, 2⟩ "B".toList "X".toList "ACK".toList none]

/-- Upload whose outlet and app fields collide on the `-`-joined dedupe key:
`"A-B" / "C"` and `"A" / "B-C"` produce the same `dedupe_key` string on the
same date, although their (outlet, app) pairs differ. -/
def rowsCollide : List RawRow :=
  [mkRaw (some ⟨2024, 6, 1⟩) (some "A-B".toList) (some "C".toList) "ACK".toList none,
   mkRaw (some ⟨2024, 6, 1⟩) (some "A".toList) (some "B-C".toList) "ACK".toList none]

/-- Same collision plus a genuine duplicate of the second (outlet, app, date)
triple with a different status. -/
def rowsCollide3 : List RawRow :=
  [mkRaw (some ⟨2024, 6, 1⟩) (some "A-B".toList) (some "C".toList) "ACK".toList none,
   mkRaw (some ⟨2024, 6, 1⟩) (some "A".toList) (some "B-C".toList) "ACK".toList none,
   mkRaw (some ⟨2024, 6, 1⟩) (some "A".toList) (some "B-C".toList) "NACK".toList none]

/-- Upload with one duplicated (date, outlet, app) triple under two statuses. -/
def rowsW3 : List RawRow :=
  [mkRaw (some ⟨2024, 6, 1⟩) (some "A".toList) (some "X".toList) "ACK".toList none,
   mkRaw (some ⟨2024, 6, 1⟩) (some "A".toList) (some "X".toList) "NACK".toList none]

def recW3 : NRecord := mkNR ⟨2024, 6, 1⟩ "A".toList "X".toList "ACK".toList none

/-- Upload with two rows bearing distinct dedupe keys. -/
def rowsW4 : List RawRow :=
  [mkRaw (some ⟨2024, 6, 1⟩) (some "A".toList) (some "X".toList) "ACK".toList none,
   mkRaw (some ⟨2024, 6, 1⟩) (some "B".toList) (some "X".toList) "ACK".toList none]

def recW4 : NRecord := mkNR ⟨2024, 6, 1⟩ "A".toList "X".toList "ACK".toList none

/-- Earlier-date frame whose single (outlet, app) pair is `("A|B", "C")`. -/
def dfPipe1 : List NRecord :=
  [mkNR ⟨2024, 6, 1⟩ "A|B".toList "C".toList "ACK".toList none]

/-- Later-date frame whose single (outlet, app) pair is `("A", "B|C")`; its
`|`-joined delta key collides with the one of `dfPipe1`. -/
def dfPipe2 : List NRecord :=
  [mkNR ⟨2024, 6, 2⟩ "A".toList "B|C".toList "ACK".toList none]

/-- Delimiter-free frames for the delta witness: outlet A app X on the
earlier date only, outlet B app X on the later date only. -/
def dfGm1 : List NRecord :=
  [mkNR ⟨2024, 6, 1⟩ "A".toList "X".toList "ACK".toList none]

def dfGm2 : List NRecord :=
  [mkNR ⟨2024, 6, 2⟩ "B".toList "X".toList "ACK".toList none]

/-- Later-date record with a NACK status (lower case, to exercise the
case-insensitive filter) and a missing message. -/
def recW8 : NRecord := mkNR ⟨2024, 6, 2⟩ "A".toList "X".toList "nack".toList none

def dfW8 : List NRecord := [recW8]

/-! ### Helper lemmas: chronological order -/

theorem chronLE_refl (a : Date) : chronLE a a := by unfold chronLE; omega

instance : IsTotal Date chronLE := ⟨by intro a b; unfold chronLE; omega⟩

instance : IsTrans Date chronLE := ⟨by intro a b c; unfold chronLE; omega⟩

theorem chronLT_of_le_of_ne {a b : Date} (h : chronLE a b) (hne : a ≠ b) :
    chronLT a b := by
  have hab : ¬(a.year = b.year ∧ a.month = b.month ∧ a.day = b.day) := by
    intro hc
    apply hne
    cases a
    cases b
    simp only [Date.mk.injEq]
    exact ⟨hc.1, hc.2.1, hc.2.2⟩
  unfold chronLE at h
  unfold chronLT
  omega

/-- Any list of length at least two splits off its last two elements. -/
theorem exists_last_two {α : Type} :
    ∀ (s : List α), 2 ≤ s.length → ∃ t e l, s = t ++ [e, l]
  | [], h => by simp at h
  | [a], h => by simp at h
  | [a, b], _ => ⟨[], a, b, rfl⟩
  | a :: b :: c :: s, _ => by
      obtain ⟨t, e, l, h⟩ := exists_last_two (b :: c :: s) (by simp)
      exact ⟨a :: t, e, l, by rw [h]; rfl⟩

/-- C6: for every input whose normalized records contain at least two distinct
search_date values, the selected period is the pair of the two chronologically
latest distinct dates, with earlier strictly before later and both present in
the input's date set. -/
theorem get_latest_two_dates_spec (df : List NRecord)
    (h2 : 2 ≤ (distinctDates df).length) :
    ∃ e l, get_latest_two_dates df = [e, l] ∧ e ∈ distinctDates df ∧
      l ∈ distinctDates df ∧ chronLT e l ∧
      (∀ d ∈ distinctDates df, chronLE d l) ∧
      (∀ d ∈ distinctDates df, d ≠ l → chronLE d e) := by
  obtain ⟨t, e, l, hdec⟩ :=
    exists_last_two (List.insertionSort chronLE (distinctDates df))
      (by rw [List.length_insertionSort]; exact h2)
  have hsort := List.sorted_insertionSort chronLE (distinctDates df)
  have hperm := List.perm_insertionSort chronLE (distinctDates df)
  have hnd : (List.insertionSort chronLE (distinctDates df)).Nodup :=
    hperm.nodup_iff.mpr (List.nodup_dedup _)
  rw [hdec] at hsort hnd hperm
  have hmem : ∀ x, x ∈ t ++ [e, l] ↔ x ∈ distinctDates df := fun x => hperm.mem_iff
  obtain ⟨hpt, hpel, hcross⟩ := List.pairwise_append.mp hsort
  have hel : chronLE e l := (List.pairwise_cons.mp hpel).1 l (List.mem_cons_self _ _)
  have hne : e ≠ l := by
    have hd := (List.pairwise_append.mp hnd).2.1
    exact (List.pairwise_cons.mp hd).1 l (List.mem_cons_self _ _)
  refine ⟨e, l, ?_, ?_, ?_, chronLT_of_le_of_ne hel hne, ?_, ?_⟩
  · rw [get_latest_two_dates, hdec]
    have hlen : (t ++ [e, l]).length - 2 = t.length := by simp
    rw [hlen, List.drop_left]
  · exact (hmem e).mp (List.mem_append.mpr (Or.inr (List.mem_cons_self _ _)))
  · exact (hmem l).mp (List.mem_append.mpr (Or.inr (List.mem_cons_of_mem _
      (List.mem_singleton_self _))))
  · intro d hd
    rcases List.mem_append.mp ((hmem d).mpr hd) with h | h
    · exact hcross d h l (List.mem_cons_of_mem _ (List.mem_singleton_self _))
    · rcases List.mem_cons.mp h with rfl | h
      · exact hel
      · rw [List.mem_singleton.mp h]
        exact chronLE_refl l
  · intro d hd hdl
    rcases List.mem_append.mp ((hmem d).mpr hd) with h | h
    · exact hcross d h e (List.mem_cons_self _ _)
    · rcases List.mem_cons.mp h with rfl | h
      · exact chronLE_refl _
      · exact absurd (List.mem_singleton.mp h) hdl

/-- Witness for C6 at a concrete two-date dataset. -/
theorem get_latest_two_dates_spec_witness :
    2 ≤ (distinctDates dfC6).length ∧
    (∃ e l, get_latest_two_dates dfC6 = [e, l] ∧ e ∈ distinctDates dfC6 ∧
      l ∈ distinctDates dfC6 ∧ chronLT e l ∧
      (∀ d ∈ distinctDates dfC6, chronLE d l) ∧
      (∀ d ∈ distinctDates dfC6, d ≠ l → chronLE d e)) :=
  ⟨by decide, get_latest_two_dates_spec dfC6 (by decide)⟩

/-- C5: with fewer than two distinct search dates in the normalized data, the
pipeline halts with the explicit insufficient-data signal; the comparator and
classifier never run, and no summary, delta or rejection structure is
produced (the `Except.error` result carries no `PipelineOutput`). -/
theorem run_pipeline_insufficient (rows : List RawRow)
    (h : (distinctDates (load_data rows)).length < 2) :
    run_pipeline rows = .error .insufficientPeriods := by
  have hsl := List.length_insertionSort chronLE (distinctDates (load_data rows))
  have hlen : (get_latest_two_dates (load_data rows)).length < 2 := by
    rw [get_latest_two_dates, List.length_drop]
    omega
  rcases hl : get_latest_two_dates (load_data rows) with _ | ⟨a, _ | ⟨b, rest⟩⟩
  · simp only [run_pipeline, hl]
  · simp only [run_pipeline, hl]
  · rw [hl] at hlen
    simp only [List.length_cons] at hlen
    omega

/-- Witness for C5: a single-date upload halts with `insufficientPeriods`. -/
theorem run_pipeline_insufficient_witness :
    (distinctDates (load_data
        [mkRaw (some ⟨2024, 6, 1⟩) (some "A".toList) (some "X".toList)
           "ACK".toList none])).length < 2 ∧
    run_pipeline
        [mkRaw (some ⟨2024, 6, 1⟩) (some "A".toList) (some "X".toList)
           "ACK".toList none] = .error .insufficientPeriods :=
  ⟨by decide, run_pipeline_insufficient _ (by decide)⟩

/-! ### Helper lemmas: deduplication on the dedupe_key column -/

theorem dedupAux_subset {l : List NRecord} :
    ∀ {seen r}, r ∈ dedupAux seen l → r ∈ l := by
  induction l with
  | nil =>
    intro seen r h
    simp [dedupAux] at h
  | cons a t ih =>
    intro seen r h
    by_cases hmem : a.dedupe_key ∈ seen
    · simp only [dedupAux, if_pos hmem] at h
      exact List.mem_cons_of_mem _ (ih h)
    · simp only [dedupAux, if_neg hmem] at h
      rcases List.mem_cons.mp h with rfl | h
      · exact List.mem_cons_self _ _
      · exact List.mem_cons_of_mem _ (ih h)

theorem dedupAux_avoid {l : List NRecord} :
    ∀ {seen r}, r ∈ dedupAux seen l → r.dedupe_key ∉ seen := by
  induction l with
  | nil =>
    intro seen r h
    simp [dedupAux] at h
  | cons a t ih =>
    intro seen r h
    by_cases hmem : a.dedupe_key ∈ seen
    · simp only [dedupAux, if_pos hmem] at h
      exact ih h
    · simp only [dedupAux, if_neg hmem] at h
      rcases List.mem_cons.mp h with rfl | h
      · exact hmem
      · intro hc
        exact ih h (List.mem_cons_of_mem _ hc)

theorem dedupAux_keys_nodup {l : List NRecord} :
    ∀ {seen}, ((dedupAux seen l).map (fun r => r.dedupe_key)).Nodup := by
  induction l with
  | nil =>
    intro seen
    simp [dedupAux]
  | cons a t ih =>
    intro seen
    by_cases hmem : a.dedupe_key ∈ seen
    · simp only [dedupAux, if_pos hmem]
      exact ih
    · simp only [dedupAux, if_neg hmem, List.map_cons]
      refine List.nodup_cons.mpr ⟨?_, ih⟩
      intro hc
      obtain ⟨r, hr, hk⟩ := List.mem_map.mp hc
      exact dedupAux_avoid hr (by rw [hk]; exact List.mem_cons_self _ _)

theorem dedupAux_find {l : List NRecord} :
    ∀ {seen} {k : Str}, k ∉ seen →
      (dedupAux seen l).find? (fun r => r.dedupe_key == k) =
        l.find? (fun r => r.dedupe_key == k) := by
  induction l with
  | nil =>
    intro seen k _
    rfl
  | cons a t ih =>
    intro seen k hk
    by_cases hmem : a.dedupe_key ∈ seen
    · have hne : (a.dedupe_key == k) = false :=
        beq_eq_false_iff_ne.mpr (fun he => hk (he ▸ hmem))
      simp only [dedupAux, if_pos hmem, List.find?_cons, hne]
      exact ih hk
    · by_cases heq : a.dedupe_key = k
      · have hpos : (a.dedupe_key == k) = true := beq_iff_eq.mpr heq
        simp only [dedupAux, if_neg hmem, List.find?_cons, hpos]
      · have hne : (a.dedupe_key == k) = false := beq_eq_false_iff_ne.mpr heq
        have hk2 : k ∉ a.dedupe_key :: seen := by
          intro hc
          rcases List.mem_cons.mp hc with rfl | hc
          · exact heq rfl
          · exact hk hc
        simp only [dedupAux, if_neg hmem, List.find?_cons, hne]
        exact ih hk2

theorem dedupAux_keys_mem {l : List NRecord} :
    ∀ {seen} {k : Str}, k ∈ l.map (fun r => r.dedupe_key) → k ∉ seen →
      k ∈ (dedupAux seen l).map (fun r => r.dedupe_key) := by
  induction l with
  | nil =>
    intro seen k h _
    simp at h
  | cons a t ih
  =>
    intro seen k hin hk
    by_cases hmem : a.dedupe_key ∈ seen
    · simp only [dedupAux, if_pos hmem]
      apply ih ?_ hk
      obtain ⟨r, hr, hkr⟩ := List.mem_map.mp hin
      rcases List.mem_cons.mp hr with rfl | hr
      · exfalso
        rw [hkr] at hmem
        exact hk hmem
      · exact List.mem_map.mpr ⟨r, hr, hkr⟩
    · by_cases heq : k = a.dedupe_key
      · simp only [dedupAux, if_neg hmem, List.map_cons]
        rw [heq]
        exact List.mem_cons_self _ _
      · simp only [dedupAux, if_neg hmem, List.map_cons]
        apply List.mem_cons_of_mem
        apply ih ?_ ?_
        · obtain ⟨r, hr, hkr⟩ := List.mem_map.mp hin
          rcases List.mem_cons.mp hr with rfl | hr
          · exact absurd hkr.symm heq
          · exact List.mem_map.mpr ⟨r, hr, hkr⟩
        · intro hc
          rcases List.mem_cons.mp hc with h | h
          · exact heq h
          · exact hk h

theorem dedupAux_eq_self {l : List NRecord} :
    ∀ {seen}, (l.map (fun r => r.dedupe_key)).Nodup →
      (∀ r ∈ l, r.dedupe_key ∉ seen) → dedupAux seen l = l := by
  induction l with
  | nil =>
    intro seen _ _
    rfl
  | cons a t ih =>
    intro seen hnd hav
    have hnd2 : (a.dedupe_key :: t.map (fun r => r.dedupe_key)).Nodup := by
      simpa using hnd
    have hmem : a.dedupe_key ∉ seen := hav a (List.mem_cons_self _ _)
    simp only [dedupAux, if_neg hmem]
    congr 1
    apply ih (List.nodup_cons.mp hnd2).2
    intro r hr hc
    rcases List.mem_cons.mp hc with h | h
    · have : a.dedupe_key ∈ t.map (fun r => r.dedupe_key) := by
        rw [← h]
        exact List.mem_map.mpr ⟨r, hr, rfl⟩
      exact (List.nodup_cons.mp hnd2).1 this
    · exact hav r (List.mem_cons_of_mem _ hr) h

theorem find_of_unique_key {l : List NRecord} {r : NRecord} :
    r ∈ l → (l.map (fun s => s.dedupe_key)).count r.dedupe_key = 1 →
    l.find? (fun s => s.dedupe_key == r.dedupe_key) = some r := by
  induction l with
  | nil =>
    intro h _
    cases h
  | cons a t ih =>
    intro hr hc
    rw [List.map_cons, List.count_cons] at hc
    by_cases heq : a.dedupe_key = r.dedupe_key
    · have hpos : (a.dedupe_key == r.dedupe_key) = true := beq_iff_eq.mpr heq
      simp only [List.find?_cons, hpos]
      simp [hpos] at hc
      have h0 : (t.map (fun s => s.dedupe_key)).count r.dedupe_key = 0 := by omega
      have hnr : r.dedupe_key ∉ t.map (fun s => s.dedupe_key) := List.count_eq_zero.mp h0
      rcases List.mem_cons.mp hr with rfl | hrt
      · rfl
      · exact absurd (List.mem_map.mpr ⟨r, hrt, rfl⟩) hnr
    · have hne : (a.dedupe_key == r.dedupe_key) = false := beq_eq_false_iff_ne.mpr heq
      simp only [List.find?_cons, hne]
      have hrt : r ∈ t := by
        rcases List.mem_cons.mp hr with rfl | hrt
        · exact absurd rfl heq
        · exact hrt
      apply ih hrt
      simp [hne] at hc
      omega

/-- Every record surviving `load_data` carries the concatenated key string on
its `dedupe_key` column and has no `key` column yet. -/
theorem eligible_fields {rows : List RawRow} {r : NRecord}
    (h : r ∈ eligibleRecords rows) :
    r.dedupe_key = dateStr r.sdate ++ '-' :: r.outlet_name ++ '-' :: r.buyer_app ∧
    r.key = none := by
  obtain ⟨raw, _, hn⟩ := List.mem_filterMap.mp h
  obtain ⟨so, on2, ba, city, st, msg⟩ := raw
  rcases so with _ | d
  · simp [normRow] at hn
  rcases on2 with _ | o
  · simp [normRow] at hn
  rcases ba with _ | b
  · simp [normRow] at hn
  simp only [normRow, Option.some.injEq] at hn
  rw [← hn]
  exact ⟨rfl, rfl⟩

theorem count_eq_one_of_nodup_mem {α : Type} [BEq α] [LawfulBEq α] {a : α} :
    ∀ {l : List α}, l.Nodup → a ∈ l → l.count a = 1 := by
  intro l
  induction l with
  | nil =>
    intro _ ha
    cases ha
  | cons b t ih =>
    intro hnd ha
    rw [List.count_cons]
    rcases List.mem_cons.mp ha with rfl | hat
    · rw [List.count_eq_zero.mpr (List.nodup_cons.mp hnd).1]
      simp
    · have hba : (b == a) = false :=
        beq_eq_false_iff_ne.mpr (fun he => (List.nodup_cons.mp hnd).1 (he ▸ hat))
      rw [ih (List.nodup_cons.mp hnd).2 hat, hba]
      simp

/-- C3 (amended): in the normalizer's output every dedupe_key string occurs on
exactly one record; the record retained for each key string is the first
eligible input row bearing that string; consequently each
(search_date, outlet_name, buyer_app) triple occurs on at most one output
record.  (The claim's stronger reading — that the first row of each
*triple* is retained — fails when an earlier row with a different triple
collides on the `-`-joined key string, see the counterexample.) -/
theorem load_data_dedup_spec (rows : List RawRow) :
    (∀ k ∈ (load_data rows).map (fun r => r.dedupe_key),
        ((load_data rows).map (fun r => r.dedupe_key)).count k = 1) ∧
    (∀ r ∈ load_data rows,
        (eligibleRecords rows).find? (fun s => s.dedupe_key == r.dedupe_key) =
          some r) ∧
    (∀ r ∈ load_data rows, ∀ s ∈ load_data rows,
        r.sdate = s.sdate → r.outlet_name = s.outlet_name →
        r.buyer_app = s.buyer_app → r = s) := by
  have hnd : ((load_data rows).map (fun r => r.dedupe_key)).Nodup :=
    dedupAux_keys_nodup
  refine ⟨?_, ?_, ?_⟩
  · intro k hk
    exact count_eq_one_of_nodup_mem hnd hk
  · intro r hr
    have h1 : (load_data rows).find? (fun s => s.dedupe_key == r.dedupe_key) =
        some r :=
      find_of_unique_key hr
        (count_eq_one_of_nodup_mem hnd (List.mem_map.mpr ⟨r, hr, rfl⟩))
    have h2 := dedupAux_find (l := eligibleRecords rows)
      (k := r.dedupe_key) (List.not_mem_nil _)
    rw [← h2]
    exact h1
  · intro r hr s hs h1 h2 h3
    have hkr := (eligible_fields (dedupAux_subset hr)).1
    have hks := (eligible_fields (dedupAux_subset hs)).1
    have hkey : r.dedupe_key = s.dedupe_key := by
      rw [hkr, hks, h1, h2, h3]
    exact List.inj_on_of_nodup_map hnd hr hs hkey

/-- Witness for the amended C3: on a two-row duplicate upload the retained
record is the first eligible row bearing its key string. -/
theorem load_data_dedup_spec_witness :
    recW3 ∈ load_data rowsW3 ∧
    (eligibleRecords rowsW3).find?
      (fun s => s.dedupe_key == recW3.dedupe_key) = some recW3 :=
  ⟨by decide, (load_data_dedup_spec rowsW3).2.1 recW3 (by decide)⟩

/-- Counterexample to C3 as stated: in `rowsCollide3` the second and third
rows are eligible, distinct, and share the full (search_date, outlet_name,
buyer_app) triple, yet no output record carries that triple at all — the
first occurrence of the triple is *not* retained, because the first row's
different triple ("A-B", "C") produces the same `-`-joined dedupe_key
string. -/
theorem load_data_dedup_cex :
    (∃ r1 ∈ eligibleRecords rowsCollide3, ∃ r2 ∈ eligibleRecords rowsCollide3,
       r1 ≠ r2 ∧ r1.sdate = r2.sdate ∧ r1.outlet_name = r2.outlet_name ∧
       r1.buyer_app = r2.buyer_app) ∧
    (∀ r ∈ load_data rowsCollide3,
       ¬(r.outlet_name = "A".toList ∧ r.buyer_app = "B-C".toList)) ∧
    (load_data rowsCollide3).length = 1 := by decide

/-- C4 (amended): `load_data` deduplicates two eligible rows exactly when
their `-`-joined `dedupe_key` strings coincide: output key strings are
pairwise distinct; an eligible row whose key string is unique among the
eligible rows always survives; and every dropped eligible row was
deduplicated against a distinct retained record with the same key string.
Rows agreeing on the whole (search_date, outlet_name, buyer_app) triple
always share the key string, but rows with differing triples may share it
too when a field contains the `-` delimiter (see the counterexample). -/
theorem load_data_dedup_key_iff (rows : List RawRow) :
    ((load_data rows).map (fun r => r.dedupe_key)).Nodup ∧
    (∀ r ∈ eligibleRecords rows,
        ((eligibleRecords rows).map (fun s => s.dedupe_key)).count
          r.dedupe_key = 1 → r ∈ load_data rows) ∧
    (∀ r ∈ eligibleRecords rows, r ∉ load_data rows →
        ∃ s ∈ load_data rows, s.dedupe_key = r.dedupe_key ∧ s ≠ r) := by
  refine ⟨dedupAux_keys_nodup, ?_, ?_⟩
  · intro r hr hc
    have h1 := find_of_unique_key hr hc
    have h2 := dedupAux_find (l := eligibleRecords rows)
      (k := r.dedupe_key) (List.not_mem_nil _)
    have h3 : (load_data rows).find?
        (fun s => s.dedupe_key == r.dedupe_key) = some r := by
      rw [load_data, h2]
      exact h1
    exact List.mem_of_find?_eq_some h3
  · intro r hr hnot
    have hk : r.dedupe_key ∈ (load_data rows).map (fun s => s.dedupe_key) :=
      dedupAux_keys_mem (List.mem_map.mpr ⟨r, hr, rfl⟩) (List.not_mem_nil _)
    obtain ⟨s, hs, hks⟩ := List.mem_map.mp hk
    exact ⟨s, hs, hks, fun he => hnot (he ▸ hs)⟩

/-- Witness for the amended C4 at a concrete upload with one duplicate pair:
the row with a unique key string survives normalization. -/
theorem load_data_dedup_key_iff_witness :
    recW4 ∈ eligibleRecords rowsW4 ∧
    ((eligibleRecords rowsW4).map (fun s => s.dedupe_key)).count
      recW4.dedupe_key = 1 ∧
    recW4 ∈ load_data rowsW4 := by
  refine ⟨by decide, by decide, ?_⟩
  exact (load_data_dedup_key_iff rowsW4).2.1 recW4 (by decide) (by decide)

/-- Counterexample to C4 as stated: in `rowsCollide` both rows are eligible
and their (search_date, outlet_name, buyer_app) triples differ (the buyer
apps differ), yet they are deduplicated against each other — only one of
the two survives — because `"A-B" + "-" + "C"` and `"A" + "-" + "B-C"`
concatenate to the same string. -/
theorem load_data_collision_cex :
    (eligibleRecords rowsCollide).length = 2 ∧
    (∃ r1 ∈ eligibleRecords rowsCollide, ∃ r2 ∈ eligibleRecords rowsCollide,
       r1.buyer_app ≠ r2.buyer_app ∧
       (r1 ∉ load_data rowsCollide ∨ r2 ∉ load_data rowsCollide)) ∧
    (load_data rowsCollide).length = 1 := by decide

/-- C9: normalization is idempotent — feeding the normalizer's own output
back through it (all required fields present, so the drop step keeps every
row, and all key strings already distinct, so the dedup step keeps every
row) reproduces the same record list. -/
theorem filterMap_id_of_mem {α : Type} {f : α → Option α} :
    ∀ (l : List α), (∀ r ∈ l, f r = some r) → l.filterMap f = l := by
  intro l
  induction l with
  | nil =>
    intro _
    rfl
  | cons a t ih =>
    intro h
    simp only [List.filterMap_cons, h a (List.mem_cons_self _ _)]
    rw [ih (fun r hr => h r (List.mem_cons_of_mem _ hr))]

theorem load_data_idempotent (rows : List RawRow) :
    load_data ((load_data rows).map toRaw) = load_data rows := by
  have hself : ∀ r ∈ load_data rows, normRow (toRaw r) = some r := by
    intro r hr
    obtain ⟨hkey, hnone⟩ := eligible_fields (dedupAux_subset hr)
    cases r with
    | mk sd o b city st msg dk ky =>
      simp only at hkey hnone
      subst hkey
      subst hnone
      rfl
  have hel : eligibleRecords ((load_data rows).map toRaw) = load_data rows := by
    rw [eligibleRecords, List.filterMap_map]
    exact filterMap_id_of_mem _ hself
  show dedupAux [] (eligibleRecords ((load_data rows).map toRaw)) = load_data rows
  rw [hel]
  exact dedupAux_eq_self dedupAux_keys_nodup (fun r _ => List.not_mem_nil _)

/-- C2: `extract_reason` is exactly the first-match scan of the fixed rule
table (timeout, not found, inventory, mapped, blank, dropped) over the
lowercased message, with `"Other"` when no rule matches; in particular a
message containing both `"timeout"` and `"inventory"` classifies as
`"Timeout"` because rule 1 fires first. -/
theorem extract_reason_spec (msg : Option Str) :
    extract_reason msg = firstMatch reasonRules (lowerStr (strOfMsg msg)) ∧
    (containsStr "timeout".toList (lowerStr (strOfMsg msg)) = true →
     containsStr "inventory".toList (lowerStr (strOfMsg msg)) = true →
     extract_reason msg = "Timeout") := by
  constructor
  · rfl
  · intro h1 _
    simp only [extract_reason]
    rw [if_pos h1]

/-- Witness for C2 at a message containing both key substrings. -/
theorem extract_reason_spec_witness :
    containsStr "timeout".toList
      (lowerStr (strOfMsg (some "Inventory timeout".toList))) = true ∧
    containsStr "inventory".toList
      (lowerStr (strOfMsg (some "Inventory timeout".toList))) = true ∧
    extract_reason (some "Inventory timeout".toList) = "Timeout" :=
  ⟨by decide, by decide,
   (extract_reason_spec (some "Inventory timeout".toList)).2 (by decide) (by decide)⟩

/-- C8: a NACK record whose message cell is null is classified `"Other"`:
`str(None)` lowercases to the literal `"none"`, which matches none of the
substring rules. -/
theorem nack_null_message_other (df : List NRecord) (r : NRecord) (cat : String)
    (hmem : (r, cat) ∈ (nack_summary df).2.1) (hmsg : r.message = none) :
    cat = "Other" ∧ lowerStr (strOfMsg none) = "none".toList ∧
    firstMatch reasonRules "none".toList = "Other" := by
  refine ⟨?_, by decide, by decide⟩
  simp only [nack_summary] at hmem
  obtain ⟨s, _, hpair⟩ := List.mem_map.mp hmem
  have h1 : s = r := congrArg Prod.fst hpair
  have h2 : extract_reason s.message = cat := congrArg Prod.snd hpair
  rw [← h2, h1, hmsg]
  rfl

/-- Witness for C8 at a concrete lower-case-NACK record with a null message. -/
theorem nack_null_message_other_witness :
    (recW8, "Other") ∈ (nack_summary dfW8).2.1 ∧ recW8.message = none ∧
    ("Other" = "Other" ∧ lowerStr (strOfMsg none) = "none".toList ∧
     firstMatch reasonRules "none".toList = "Other") :=
  ⟨by decide, rfl, nack_null_message_other dfW8 recW8 "Other" (by decide) rfl⟩

theorem find?_map_app {f : Str → SummaryRow} (hf : ∀ x, (f x).app = x) :
    ∀ (l : List Str) (a : Str), a ∈ l →
      (l.map f).find? (fun row => row.app == a) = some (f a) := by
  intro l
  induction l with
  | nil =>
    intro a ha
    cases ha
  | cons x t ih =>
    intro a ha
    by_cases hxa : x = a
    · subst hxa
      have hpos : ((f x).app == x) = true := beq_iff_eq.mpr (hf x)
      simp only [List.map_cons, List.find?_cons, hpos]
    · have hneg : ((f x).app == a) = false :=
        beq_eq_false_iff_ne.mpr (by rw [hf x]; exact hxa)
      have hat : a ∈ t := by
        rcases List.mem_cons.mp ha with h | h
        · exact absurd h.symm hxa
        · exact h
      simp only [List.map_cons, List.find?_cons, hneg]
      exact ih a hat

/-- C7: for every buyer app appearing on either selected date, the summary
row found for that app holds the distinct-outlet count of each date subset
(0 when the app has no records there, via `fillna(0)`), and the `Difference`
column is the signed integer `later count - earlier count`. -/
theorem buyer_app_summary_spec (df : List NRecord) (date1 date2 : Date)
    (a : Str)
    (ha : a ∈ appsOf (subsetOn df date1) ∨ a ∈ appsOf (subsetOn df date2)) :
    (buyer_app_summary df date1 date2).1.find? (fun row => row.app == a) =
      some { app := a,
             c1 := nuniqueOutlets ((subsetOn df date1).filter
                     (fun r => decide (r.buyer_app = a))),
             c2 := nuniqueOutlets ((subsetOn df date2).filter
                     (fun r => decide (r.buyer_app = a))),
             diff := (nuniqueOutlets ((subsetOn df date2).filter
                       (fun r => decide (r.buyer_app = a))) : Int) -
                     (nuniqueOutlets ((subsetOn df date1).filter
                       (fun r => decide (r.buyer_app = a))) : Int) } := by
  have hmem : a ∈ (appsOf (subsetOn df date1) ++ appsOf (subsetOn df date2)).dedup := by
    rw [List.mem_dedup, List.mem_append]
    exact ha
  exact find?_map_app (fun x => rfl) _ a hmem

/-- Witness for C7 at the concrete two-date dataset `dfC6` and app `"X"`. -/
theorem buyer_app_summary_spec_witness :
    ("X".toList ∈ appsOf (subsetOn dfC6 ⟨2024, 6, 1⟩) ∨
     "X".toList ∈ appsOf (subsetOn dfC6 ⟨2024, 6, 2⟩)) ∧
    (buyer_app_summary dfC6 ⟨2024, 6, 1⟩ ⟨2024, 6, 2⟩).1.find?
        (fun row => row.app == "X".toList) =
      some { app := "X".toList,
             c1 := nuniqueOutlets ((subsetOn dfC6 ⟨2024, 6, 1⟩).filter
                     (fun r => decide (r.buyer_app = "X".toList))),
             c2 := nuniqueOutlets ((subsetOn dfC6 ⟨2024, 6, 2⟩).filter
                     (fun r => decide (r.buyer_app = "X".toList))),
             diff := (nuniqueOutlets ((subsetOn dfC6 ⟨2024, 6, 2⟩).filter
                       (fun r => decide (r.buyer_app = "X".toList))) : Int) -
                     (nuniqueOutlets ((subsetOn dfC6 ⟨2024, 6, 1⟩).filter
                       (fun r => decide (r.buyer_app = "X".toList))) : Int) } :=
  ⟨by decide, buyer_app_summary_spec dfC6 ⟨2024, 6, 1⟩ ⟨2024, 6, 2⟩ "X".toList (by decide)⟩

theorem mem_only_in_1 (df1 df2 : List NRecord) (r : NRecord) :
    r ∈ (get_missing_outlets df1 df2).1 ↔
      ∃ s ∈ df1, withKey s = r ∧ pairKey s ∉ df2.map pairKey := by
  simp only [get_missing_outlets, List.mem_filter, List.mem_map,
    decide_eq_true_eq, List.mem_dedup]
  constructor
  · rintro ⟨⟨s, hs, rfl⟩, _, h2⟩
    exact ⟨s, hs, rfl, h2⟩
  · rintro ⟨s, hs, rfl, h2⟩
    exact ⟨⟨s, hs, rfl⟩, ⟨s, hs, rfl⟩, h2⟩

theorem mem_only_in_2 (df1 df2 : List NRecord) (r : NRecord) :
    r ∈ (get_missing_outlets df1 df2).2.1 ↔
      ∃ s ∈ df2, withKey s = r ∧ pairKey s ∉ df1.map pairKey := by
  simp only [get_missing_outlets, List.mem_filter, List.mem_map,
    decide_eq_true_eq, List.mem_dedup]
  constructor
  · rintro ⟨⟨s, hs, rfl⟩, _, h2⟩
    exact ⟨s, hs, rfl, h2⟩
  · rintro ⟨s, hs, rfl, h2⟩
    exact ⟨⟨s, hs, rfl⟩, ⟨s, hs, rfl⟩, h2⟩

/-- C1 (amended): membership in the lost/gained sets is decided by the
`|`-joined `Outlet Name + "|" + Buyer App` key string, not by the
(outlet_name, buyer_app) pair itself: a pair is in the lost set exactly
when it occurs in the earlier subset and its concatenated key occurs on no
row of the later subset (symmetrically for gained), and the lost and gained
sets are disjoint.  When neither field contains the `|` delimiter this
coincides with the claim's pair-based membership, but not in general (see
the counterexample). -/
theorem get_missing_outlets_spec (df1 df2 : List NRecord) (o a : Str) :
    ((∃ r ∈ (get_missing_outlets df1 df2).1,
        r.outlet_name = o ∧ r.buyer_app = a) ↔
      ((∃ r ∈ df1, r.outlet_name = o ∧ r.buyer_app = a) ∧
        (o ++ '|' :: a) ∉ df2.map pairKey)) ∧
    ((∃ r ∈ (get_missing_outlets df1 df2).2.1,
        r.outlet_name = o ∧ r.buyer_app = a) ↔
      ((∃ r ∈ df2, r.outlet_name = o ∧ r.buyer_app = a) ∧
        (o ++ '|' :: a) ∉ df1.map pairKey)) ∧
    ¬((∃ r ∈ (get_missing_outlets df1 df2).1,
        r.outlet_name = o ∧ r.buyer_app = a) ∧
      (∃ r ∈ (get_missing_outlets df1 df2).2.1,
        r.outlet_name = o ∧ r.buyer_app = a)) := by
  have hlost : ∀ r ∈ (get_missing_outlets df1 df2).1,
      r.outlet_name = o → r.buyer_app = a →
      (∃ s ∈ df1, s.outlet_name = o ∧ s.buyer_app = a) ∧
        (o ++ '|' :: a) ∉ df2.map pairKey := by
    intro r hr ho ha
    obtain ⟨s, hs, hws, hk⟩ := (mem_only_in_1 df1 df2 r).mp hr
    have hso : s.outlet_name = o := by rw [← ho, ← hws]; rfl
    have hsa : s.buyer_app = a := by rw [← ha, ← hws]; rfl
    have hpk : pairKey s = o ++ '|' :: a := by rw [pairKey, hso, hsa]
    exact ⟨⟨s, hs, hso, hsa⟩, hpk ▸ hk⟩
  have hgain : ∀ r ∈ (get_missing_outlets df1 df2).2.1,
      r.outlet_name = o → r.buyer_app = a →
      (∃ s ∈ df2, s.outlet_name = o ∧ s.buyer_app = a) ∧
        (o ++ '|' :: a) ∉ df1.map pairKey := by
    intro r hr ho ha
    obtain ⟨s, hs, hws, hk⟩ := (mem_only_in_2 df1 df2 r).mp hr
    have hso : s.outlet_name = o := by rw [← ho, ← hws]; rfl
    have hsa : s.buyer_app = a := by rw [← ha, ← hws]; rfl
    have hpk : pairKey s = o ++ '|' :: a := by rw [pairKey, hso, hsa]
    exact ⟨⟨s, hs, hso, hsa⟩, hpk ▸ hk⟩
  refine ⟨⟨?_, ?_⟩, ⟨?_, ?_⟩, ?_⟩
  · rintro ⟨r, hr, ho, ha⟩
    exact hlost r hr ho ha
  · rintro ⟨⟨s, hs, hso, hsa⟩, hk⟩
    have hpk : pairKey s = o ++ '|' :: a := by rw [pairKey, hso, hsa]
    refine ⟨withKey s, (mem_only_in_1 df1 df2 _).mpr ⟨s, hs, rfl, hpk ▸ hk⟩, hso, hsa⟩
  · rintro ⟨r, hr, ho, ha⟩
    exact hgain r hr ho ha
  · rintro ⟨⟨s, hs, hso, hsa⟩, hk⟩
    have hpk : pairKey s = o ++ '|' :: a := by rw [pairKey, hso, hsa]
    refine ⟨withKey s, (mem_only_in_2 df1 df2 _).mpr ⟨s, hs, rfl, hpk ▸ hk⟩, hso, hsa⟩
  · rintro ⟨⟨r, hr, ho, ha⟩, ⟨r2, hr2, ho2, ha2⟩⟩
    have h1 := hlost r hr ho ha
    obtain ⟨s2, hs2, hws2, _⟩ := (mem_only_in_2 df1 df2 r2).mp hr2
    have hso2 : s2.outlet_name = o := by rw [← ho2, ← hws2]; rfl
    have hsa2 : s2.buyer_app = a := by rw [← ha2, ← hws2]; rfl
    apply h1.2
    refine List.mem_map.mpr ⟨s2, hs2, ?_⟩
    rw [pairKey, hso2, hsa2]

/-- Witness for the amended C1: with delimiter-free fields, outlet A / app X
is lost (present on the earlier date, absent from the later one). -/
theorem get_missing_outlets_spec_witness :
    ∃ r ∈ (get_missing_outlets dfGm1 dfGm2).1,
      r.outlet_name = "A".toList ∧ r.buyer_app = "X".toList :=
  ((get_missing_outlets_spec dfGm1 dfGm2 "A".toList "X".toList).1).mpr
    ⟨by decide, by decide⟩

/-- Counterexample to C1 as stated: the pair `("A|B", "C")` occurs in the
earlier subset and occurs nowhere in the later subset, so the claimed lost
set would contain it, yet the computed lost set is empty — the later row
`("A", "B|C")` produces the same `|`-joined key string. -/
theorem get_missing_outlets_cex :
    (get_missing_outlets dfPipe1 dfPipe2).1 = [] ∧
    (∃ r ∈ dfPipe1, r.outlet_name = "A|B".toList ∧ r.buyer_app = "C".toList) ∧
    (∀ r ∈ dfPipe2, ¬(r.outlet_name = "A|B".toList ∧ r.buyer_app = "C".toList)) := by
  decide

/-- C10: `get_missing_outlets` writes the `key` column into both input
frames rather than working on copies: in the post-state frames every row
carries `key = outlet_name + "|" + buyer_app`, every field other than `key`
is preserved row by row, and a nonempty input frame that did not already
carry that column comes back changed — the inputs are mutated, not copied. -/
theorem get_missing_outlets_mutates (df1 df2 : List NRecord) :
    ((get_missing_outlets df1 df2).2.2.1.map (fun r => { r with key := none }) =
      df1.map (fun r => { r with key := none })) ∧
    (∀ r ∈ (get_missing_outlets df1 df2).2.2.1,
      r.key = some (r.outlet_name ++ '|' :: r.buyer_app)) ∧
    ((get_missing_outlets df1 df2).2.2.2.map (fun r => { r with key := none }) =
      df2.map (fun r => { r with key := none })) ∧
    (∀ r ∈ (get_missing_outlets df1 df2).2.2.2,
      r.key = some (r.outlet_name ++ '|' :: r.buyer_app)) ∧
    (df1 ≠ [] → (∀ r ∈ df1, r.key = none) →
      (get_missing_outlets df1 df2).2.2.1 ≠ df1) := by
  refine ⟨?_, ?_, ?_, ?_, ?_⟩
  · show (df1.map withKey).map (fun r => { r with key := none }) =
      df1.map (fun r => { r with key := none })
    rw [List.map_map]
    rfl
  · intro r hr
    obtain ⟨s, _, rfl⟩ := List.mem_map.mp hr
    rfl
  · show (df2.map withKey).map (fun r => { r with key := none }) =
      df2.map (fun r => { r with key := none })
    rw [List.map_map]
    rfl
  · intro r hr
    obtain ⟨s, _, rfl⟩ := List.mem_map.mp hr
    rfl
  · intro hne hkeys
    cases df1 with
    | nil => exact absurd rfl hne
    | cons r t =>
      intro heq
      have hh : withKey r = r := by
        have : (withKey r :: t.map withKey) = r :: t := heq
        injection this
      have hk := congrArg NRecord.key hh
      rw [hkeys r (List.mem_cons_self _ _)] at hk
      simp [withKey] at hk

/-- Witness for C10: the earlier-date frame `dfGm1` is nonempty and keyless,
and comes back from `get_missing_outlets` as a different list. -/
theorem get_missing_outlets_mutates_witness :
    dfGm1 ≠ [] ∧ (∀ r ∈ dfGm1, r.key = none) ∧
    (get_missing_outlets dfGm1 dfGm2).2.2.1 ≠ dfGm1 :=
  ⟨by decide, by decide,
   (get_missing_outlets_mutates dfGm1 dfGm2).2.2.2.2 (by decide) (by decide)⟩
